import Mathlib

/-!
Shallow embedding of the `fieldsetter` package of the ConfigLoader repository
(`SetValue` / `setFieldRecursive` / `SetFields` in the fieldsetter source, and
`MockLoader.Load` in `mock_loader.go`), together with theorems settling the
frozen claims about the path-addressed field mutator.

Modelling conventions:
* Go values reachable by the mutator are modelled by the mutual inductive
  `Val` (ints, strings, bools, pointers, structs, slices, maps with string
  keys).  Static Go types are modelled by `Ty`; a value's runtime type is
  `tyOf`.  Struct types are structural (name plus ordered field list with
  embedded flags), so `tyOf`-equality pins down the whole field-name shape,
  as Go's type identity does.
* `reflect.Type.AssignableTo` is modelled as equality of modelled types
  (`tyBeq`).  Interface-typed destinations, named/unnamed conversions and
  non-string map keys are outside the model's scope; no claim touches them.
* The Go code always reaches `setFieldRecursive` with a pointer whose
  element is settable (the root is checked in `SetValue`, and recursive
  calls pass `Addr()` of a settable location), so the embedding operates
  directly on the pointee and the "target must be a pointer and settable"
  branch is not modelled.
* A Go runtime panic (here: `reflect.Value.Type` called on the zero
  `reflect.Value`, which happens when `value` is nil in the slice and map
  branches) is modelled as the distinguished outcome `Outcome.goPanic`;
  returned errors are `Outcome.err`.
* `strconv.Atoi` is modelled by `atoi` (optional sign, decimal digits,
  unbounded `Int`; the 64-bit range error is out of scope, no claim uses
  huge indices).  `strings.Split(path, ".")` is modelled by `splitPath`
  (in particular the empty path splits to `[""]`, as in Go).
* Go map iteration order is unspecified; `SetFields` is modelled over an
  ordered association list of `(path, value)` entries, as the claims require
  quantifying over a processing order anyway.
-/

/-! Static Go types, mutual with field-type lists.  A struct field type
records the field name, whether the field is embedded (anonymous), and its
type, in declaration order. -/
mutual
inductive Ty where
  | tInt
  | tString
  | tBool
  | tPtr (t : Ty)
  | tSlice (t : Ty)
  | tMap (t : Ty)
  | tStruct (name : String) (fields : FTys)
inductive FTys where
  | nil
  | cons (name : String) (embedded : Bool) (t : Ty) (rest : FTys)
end

/-! Go values, mutual with struct-field lists, slice-element lists and map
entries.  `vNil t` is the nil pointer of type `*t`; slices and maps carry
their element type so that empty ones still have a static type. -/
mutual
inductive Val where
  | vInt (n : Int)
  | vStr (s : String)
  | vBool (b : Bool)
  | vNil (t : Ty)
  | vPtr (v : Val)
  | vStruct (name : String) (fields : Fields)
  | vSlice (t : Ty) (elems : Vals)
  | vMap (t : Ty) (entries : Entries)
inductive Fields where
  | nil
  | cons (name : String) (embedded : Bool) (v : Val) (rest : Fields)
inductive Vals where
  | nil
  | cons (v : Val) (rest : Vals)
inductive Entries where
  | nil
  | cons (k : String) (v : Val) (rest : Entries)
end

/-! Runtime type of a value (`reflect.Value.Type`). -/
mutual
def tyOf : Val → Ty
  | .vInt _ => .tInt
  | .vStr _ => .tString
  | .vBool _ => .tBool
  | .vNil t => .tPtr t
  | .vPtr v => .tPtr (tyOf v)
  | .vStruct n fs => .tStruct n (tyFields fs)
  | .vSlice t _ => .tSlice t
  | .vMap t _ => .tMap t
def tyFields : Fields → FTys
  | .nil => .nil
  | .cons n e v rest => .cons n e (tyOf v) (tyFields rest)
end

/-! Boolean equality of modelled types; models
`reflect.Type.AssignableTo` restricted to the model's scope (no interface
destinations), where assignability is type identity. -/
mutual
def tyBeq : Ty → Ty → Bool
  | .tInt, .tInt => true
  | .tString, .tString => true
  | .tBool, .tBool => true
  | .tPtr a, .tPtr b => tyBeq a b
  | .tSlice a, .tSlice b => tyBeq a b
  | .tMap a, .tMap b => tyBeq a b
  | .tStruct n a, .tStruct m b => decide (n = m) && ftyBeq a b
  | _, _ => false
def ftyBeq : FTys → FTys → Bool
  | .nil, .nil => true
  | .cons n e t r, .cons n' e' t' r' =>
      decide (n = n') && decide (e = e') && tyBeq t t' && ftyBeq r r'
  | _, _ => false
end

/-! Rendering of a type, approximating Go's `%s` formatting of a
`reflect.Type` (a named struct prints its name); used only to state that
error messages name both types. -/
mutual
def tyStr : Ty → String
  | .tInt => "int"
  | .tString => "string"
  | .tBool => "bool"
  | .tPtr t => "*" ++ tyStr t
  | .tSlice t => "[]" ++ tyStr t
  | .tMap t => "map[string]" ++ tyStr t
  | .tStruct n fs => if n = "" then "struct " ++ ftysStr fs else n
def ftysStr : FTys → String
  | .nil => ""
  | .cons n _ t rest => n ++ " " ++ tyStr t ++ "; " ++ ftysStr rest
end

/-- `reflect.Value.Kind` rendered as Go prints it in the default branch's
error message. -/
def kindStr : Val → String
  | .vInt _ => "int"
  | .vStr _ => "string"
  | .vBool _ => "bool"
  | .vNil _ => "ptr"
  | .vPtr _ => "ptr"
  | .vStruct _ _ => "struct"
  | .vSlice _ _ => "slice"
  | .vMap _ _ => "map"

/-! `reflect.Zero` at the static type of the given value: the zero value of
`tyOf v`.  The zero of a slice or map type is nil, which the model
identifies with the empty slice/map. -/
mutual
def zeroLike : Val → Val
  | .vInt _ => .vInt 0
  | .vStr _ => .vStr ""
  | .vBool _ => .vBool false
  | .vNil t => .vNil t
  | .vPtr v => .vNil (tyOf v)
  | .vStruct n fs => .vStruct n (zeroFields fs)
  | .vSlice t _ => .vSlice t .nil
  | .vMap t _ => .vMap t .nil
def zeroFields : Fields → Fields
  | .nil => .nil
  | .cons n e v rest => .cons n e (zeroLike v) (zeroFields rest)
end

/-- First field with the given name, as `reflect` indexes direct fields. -/
def getField : Fields → String → Option Val
  | .nil, _ => none
  | .cons n _ v rest, name => if n = name then some v else getField rest name

/-- Replace the value of the first field with the given name. -/
def setField : Fields → String → Val → Fields
  | .nil, _, _ => .nil
  | .cons n e v rest, name, w =>
      if n = name then .cons n e w rest else .cons n e v (setField rest name w)

/-- Read along a nonempty chain of direct field names (the result of an
embedded-field promotion), as `reflect.Value.FieldByIndex` does. -/
def getAtPath : Fields → List String → Option Val
  | _, [] => none
  | fs, [n] => getField fs n
  | fs, n :: rest =>
      match getField fs n with
      | some (.vStruct _ fs') => getAtPath fs' rest
      | _ => none

/-- Write along a nonempty chain of direct field names. -/
def setAtPath : Fields → List String → Val → Fields
  | fs, [], _ => fs
  | fs, [n], w => setField fs n w
  | fs, n :: rest, w =>
      match getField fs n with
      | some (.vStruct sn fs') => setField fs n (.vStruct sn (setAtPath fs' rest w))
      | _ => fs

def Vals.length : Vals → Nat
  | .nil => 0
  | .cons _ rest => rest.length + 1

def Vals.get : Vals → Nat → Option Val
  | .nil, _ => none
  | .cons v _, 0 => some v
  | .cons _ rest, i + 1 => rest.get i

def Vals.set : Vals → Nat → Val → Vals
  | .nil, _, _ => .nil
  | .cons _ rest, 0, w => .cons w rest
  | .cons v rest, i + 1, w => .cons v (rest.set i w)

def Entries.lookup : Entries → String → Option Val
  | .nil, _ => none
  | .cons k v rest, key => if k = key then some v else rest.lookup key

/-- Map "set" semantics (`reflect.Value.SetMapIndex` with a non-nil value):
overwrite the entry if the key is present, create it otherwise. -/
def Entries.set : Entries → String → Val → Entries
  | .nil, key, w => .cons key w .nil
  | .cons k v rest, key, w =>
      if k = key then .cons k w rest else .cons k v (rest.set key w)

/-- A Go identifier is exported when its first character is upper case. -/
def isExported (s : String) : Bool := s.toList.headD 'a' |>.isUpper

def allExported (l : List String) : Bool := l.all isExported

/-! All promotion chains, paired with their depth, by which a field of the
given name can be reached in a struct of the given type: depth 0 is a direct
field, depth d+1 goes through an embedded struct field.  Models the
breadth-first search of `reflect`'s `FieldByName`.  Promotion through
embedded pointer-to-struct fields is outside the model's scope (no claim
uses one). -/
mutual
def tyMatches : Ty → String → List (Nat × List String)
  | .tStruct _ fs, name => ftyMatches fs name
  | _, _ => []
def ftyMatches : FTys → String → List (Nat × List String)
  | .nil, _ => []
  | .cons n e t rest, name =>
      (if n = name then [(0, [n])] else []) ++
        (if e then (tyMatches t name).map (fun p => (p.1 + 1, n :: p.2)) else []) ++
        ftyMatches rest name
end

def minDepth (l : List (Nat × List String)) : Option Nat :=
  l.foldr (fun p acc => match acc with
    | none => some p.1
    | some m => some (min p.1 m)) none

/-- `reflect.Value.FieldByName`: the unique promotion chain of minimal
depth, if any; ambiguity at the minimal depth or absence gives the zero
`reflect.Value` (modelled as `none`). -/
def fieldByName (t : Ty) (name : String) : Option (List String) :=
  let ms := tyMatches t name
  match minDepth ms with
  | none => none
  | some d =>
      match ms.filter (fun p => p.1 = d) with
      | [p] => some p.2
      | _ => none

def parseDigits : List Char → Nat → Option Nat
  | [], acc => some acc
  | c :: cs, acc =>
      if c.isDigit then parseDigits cs (acc * 10 + (c.toNat - 48)) else none

/-- `strconv.Atoi`: an optional single sign followed by at least one decimal
digit; the 64-bit range check is outside the model's scope. -/
def atoi (s : String) : Option Int :=
  match s.toList with
  | [] => none
  | '+' :: cs => if cs.isEmpty then none else (parseDigits cs 0).map Int.ofNat
  | '-' :: cs => if cs.isEmpty then none else (parseDigits cs 0).map (fun n => -(n : Int))
  | cs => (parseDigits cs 0).map Int.ofNat

/-- The errors `SetValue`/`setFieldRecursive` construct, one constructor per
`errors.New`/`fmt.Errorf` site, carrying the formatted data. -/
inductive GoError where
  | objectMustBePointer
  | noPathSegments
  | fieldNotFound (name : String)
  | cannotSetField (name : String)
  | fieldTypeMismatch (got expected : Ty)
  | invalidIndex (seg : String)
  | indexOutOfRange (i : Int)
  | elemTypeMismatch (got expected : Ty)
  | mapValueTypeMismatch (got expected : Ty)
  | unsupportedKind (kind : String)

/-- The message of each error, as formatted by the Go source. -/
def GoError.message : GoError → String
  | .objectMustBePointer => "Object must be a pointer"
  | .noPathSegments => "no path segments provided"
  | .fieldNotFound n => "field " ++ n ++ " does not exist"
  | .cannotSetField n => "cannot set field " ++ n
  | .fieldTypeMismatch g e =>
      "value type " ++ tyStr g ++ " is not assignable to field type " ++ tyStr e
  | .invalidIndex s => "invalid index: " ++ s
  | .indexOutOfRange i => "index out of range: " ++ toString i
  | .elemTypeMismatch g e =>
      "value type " ++ tyStr g ++ " is not assignable to element type " ++ tyStr e
  | .mapValueTypeMismatch g e =>
      "value type " ++ tyStr g ++ " is not assignable to map value type " ++ tyStr e
  | .unsupportedKind k => "unsupported type " ++ k

/-- Result of one `setFieldRecursive`/`SetValue` call: the mutated pointee,
a returned error (the pointee is untouched: the source assigns only at the
leaf, after every check), or a runtime panic. -/
inductive Outcome where
  | ok (v : Val)
  | err (e : GoError)
  | goPanic (msg : String)

/-- The recursive traversal `setFieldRecursive` of the fieldsetter package.
`v` is the pointee of the pointer the Go code receives, `value` is the `any`
argument (`none` is the nil interface).  Branches follow the source switch:
struct (field lookup, `CanSet`, leaf assignment with nil-reset and
assignability check, or recursion), slice (index parse, bounds check, leaf
assignment or recursion), map (key taken verbatim, remaining segments
ignored, assignability check, upsert), default (unsupported kind).  In the
slice and map leaf branches a nil `value` reaches
`reflect.ValueOf(value).Type()`, which panics on the zero `Value`.  The two
`.err (.fieldNotFound seg)` branches guarded by `getAtPath` are unreachable:
`fieldByName` only returns chains that exist in the struct. -/
def setFieldRecursive (v : Val) (segs : List String) (value : Option Val) : Outcome :=
  match segs with
  | [] => .err .noPathSegments
  | seg :: rest =>
    match v with
    | .vStruct sn fields =>
      match fieldByName (.tStruct sn (tyFields fields)) seg with
      | none => .err (.fieldNotFound seg)
      | some fp =>
        match getAtPath fields fp with
        | none => .err (.fieldNotFound seg)
        | some fieldVal =>
          if allExported fp then
            match rest with
            | [] =>
              match value with
              | none => .ok (.vStruct sn (setAtPath fields fp (zeroLike fieldVal)))
              | some nv =>
                if tyBeq (tyOf nv) (tyOf fieldVal) then
                  .ok (.vStruct sn (setAtPath fields fp nv))
                else .err (.fieldTypeMismatch (tyOf nv) (tyOf fieldVal))
            | _ :: _ =>
              match setFieldRecursive fieldVal rest value with
              | .ok fv' => .ok (.vStruct sn (setAtPath fields fp fv'))
              | .err e => .err e
              | .goPanic m => .goPanic m
          else .err (.cannotSetField seg)
    | .vSlice t elems =>
      match atoi seg with
      | none => .err (.invalidIndex seg)
      | some i =>
        if i < 0 ∨ (elems.length : Int) ≤ i then .err (.indexOutOfRange i)
        else
          match rest with
          | [] =>
            match value with
            | none => .goPanic "reflect: call of reflect.Value.Type on zero Value"
            | some nv =>
              if tyBeq (tyOf nv) t then .ok (.vSlice t (elems.set i.toNat nv))
              else .err (.elemTypeMismatch (tyOf nv) t)
          | _ :: _ =>
            match elems.get i.toNat with
            | none => .err (.indexOutOfRange i)
            | some e =>
              match setFieldRecursive e rest value with
              | .ok e' => .ok (.vSlice t (elems.set i.toNat e'))
              | .err er => .err er
              | .goPanic m => .goPanic m
    | .vMap t entries =>
      match value with
      | none => .goPanic "reflect: call of reflect.Value.Type on zero Value"
      | some nv =>
        if tyBeq (tyOf nv) t then .ok (.vMap t (entries.set seg nv))
        else .err (.mapValueTypeMismatch (tyOf nv) t)
    | other => .err (.unsupportedKind (kindStr other))

/-- `strings.Split(s, ".")` at the character level: cut at every dot; the
empty string yields the single-element list `[""]`, never the empty list. -/
def splitOnDotChars : List Char → List String
  | [] => [""]
  | c :: cs =>
      if c = '.' then "" :: splitOnDotChars cs
      else
        match splitOnDotChars cs with
        | s :: rest => String.mk (c :: s.toList) :: rest
        | [] => [String.mk [c]]

def splitPath (s : String) : List String := splitOnDotChars s.toList

/-- `SetValue(obj, path, value)` for a call whose `obj` is a pointer (the
source first rejects non-pointers with "Object must be a pointer"; the
embedding takes the pointee directly, every call in the repository passes
`&config`).  The path is split on `.` exactly as `strings.Split` does. -/
def SetValue (obj : Val) (path : String) (value : Option Val) : Outcome :=
  setFieldRecursive obj (splitPath path) value

/-- Result of a batch `SetFields` call: final object plus the collected
error list (the Go `nil` slice is the empty list), or a propagated panic. -/
inductive BatchResult where
  | done (v : Val) (errs : List GoError)
  | goPanic (msg : String)

/-- `SetFields(obj, fields, soft)` over an ordered entry list: apply each
pair via `SetValue`; in hard mode return a singleton on the first error, in
soft mode collect every error and keep going. -/
def SetFields (obj : Val) (fields : List (String × Option Val)) (soft : Bool) :
    BatchResult :=
  match fields with
  | [] => .done obj []
  | (p, val) :: rest =>
    match SetValue obj p val with
    | .ok obj' => SetFields obj' rest soft
    | .err e =>
      if soft then
        match SetFields obj rest soft with
        | .done o es => .done o (e :: es)
        | .goPanic m => .goPanic m
      else .done obj [e]
    | .goPanic m => .goPanic m

/-- Spec-side description of strict (hard) mode, written from the claim's
words: stop at the first failure, return a single-element error list, keep
what was already applied, leave the rest untouched. -/
def strictSpec (obj : Val) : List (String × Option Val) → BatchResult
  | [] => .done obj []
  | (p, val) :: rest =>
    match SetValue obj p val with
    | .ok obj' => strictSpec obj' rest
    | .err e => .done obj [e]
    | .goPanic m => .goPanic m

/-- Spec-side description of soft mode, written from the claim's words:
attempt every pair regardless of earlier failures and return the complete
list of errors encountered, in processing order. -/
def softSpec (obj : Val) : List (String × Option Val) → BatchResult
  | [] => .done obj []
  | (p, val) :: rest =>
    match SetValue obj p val with
    | .ok obj' => softSpec obj' rest
    | .err e =>
      match softSpec obj rest with
      | .done o es => .done o (e :: es)
      | .goPanic m => .goPanic m
    | .goPanic m => .goPanic m

/-- The mock loader's state: base mock data and accumulated overrides, as
ordered association lists standing for the two Go maps. -/
structure MockLoader where
  mockData : List (String × Option Val)
  overrides : List (String × Option Val)

/-- Result of `MockLoader.Load`: the mutated config and the returned error
(if any), or a propagated panic. -/
inductive LoadResult where
  | done (config : Val) (err : Option GoError)
  | goPanic (msg : String)

/-- `MockLoader.Load`: apply the base mock data in hard mode; on any error
return the first collected error; otherwise apply the overrides in soft
mode and again return the first collected error, or nil. -/
def MockLoader.Load (m : MockLoader) (config : Val) : LoadResult :=
  match SetFields config m.mockData false with
  | .goPanic msg => .goPanic msg
  | .done c1 errs1 =>
    match errs1 with
    | e :: _ => .done c1 (some e)
    | [] =>
      match SetFields c1 m.overrides true with
      | .goPanic msg => .goPanic msg
      | .done c2 errs2 =>
        match errs2 with
        | e :: _ => .done c2 (some e)
        | [] => .done c2 none

/-- Canonical address of one traversal step inside the record graph: a
direct struct field, a sequence index, or a map key.  Promotion through an
embedded field expands to the chain of direct field segments. -/
inductive LSeg where
  | fld (name : String)
  | idx (i : Nat)
  | key (k : String)
deriving DecidableEq

/-- Observer of the record graph at a canonical location; not part of the
source (which has no getter): it is the formal vehicle for "this
field/element/entry is unchanged". -/
def valueAtLoc : Val → List LSeg → Option Val
  | v, [] => some v
  | .vStruct _ fs, .fld n :: rest =>
      match getField fs n with
      | some w => valueAtLoc w rest
      | none => none
  | .vSlice _ es, .idx i :: rest =>
      match es.get i with
      | some w => valueAtLoc w rest
      | none => none
  | .vMap _ en, .key k :: rest =>
      match en.lookup k with
      | some w => valueAtLoc w rest
      | none => none
  | _, _ => none

/-- The canonical location a path addresses, following exactly the
traversal of `setFieldRecursive`: `none` when the traversal would fail or
when it would drop segments (a mapping reached before the final segment
consumes the next segment as a key and ignores the rest, so such a path
addresses no single leaf). -/
def resolveLoc : Val → List String → Option (List LSeg)
  | _, [] => none
  | v, seg :: rest =>
    match v with
    | .vStruct sn fs =>
      match fieldByName (.tStruct sn (tyFields fs)) seg with
      | none => none
      | some fp =>
        match getAtPath fs fp with
        | none => none
        | some w =>
          if allExported fp then
            match rest with
            | [] => some (fp.map .fld)
            | _ :: _ =>
              match resolveLoc w rest with
              | some l => some (fp.map .fld ++ l)
              | none => none
          else none
    | .vSlice _ es =>
      match atoi seg with
      | none => none
      | some i =>
        if i < 0 ∨ (es.length : Int) ≤ i then none
        else
          match rest with
          | [] => some [.idx i.toNat]
          | _ :: _ =>
            match es.get i.toNat with
            | some w =>
              match resolveLoc w rest with
              | some l => some (.idx i.toNat :: l)
              | none => none
            | none => none
    | .vMap _ _ =>
      match rest with
      | [] => some [.key seg]
      | _ :: _ => none
    | _ => none

/-- Decidable list-prefix test used to compare locations: `isLeadOf p q`
holds when `p` is an initial segment of `q`. -/
def isLeadOf : List LSeg → List LSeg → Bool
  | [], _ => true
  | _ :: _, [] => false
  | a :: p, b :: q => if a = b then isLeadOf p q else false

/-! Concrete record graphs used by witnesses and counterexamples.  They
mirror the structs of the repository's tests: `Config` from the mock-loader
test and `ConfigWithEmbeds` from the embedded-struct test, plus small
one-field roots for the slice, map and pointer cases. -/

def exNested : Val := .vStruct "" (.cons "Field3" false (.vBool false) .nil)

def exConfig : Val := .vStruct "Config"
  (.cons "Field1" false (.vStr "") (.cons "Field2" false (.vInt 7)
    (.cons "Nested" false exNested .nil)))

def exCwe : Val := .vStruct "ConfigWithEmbeds"
  (.cons "Config" true exConfig (.cons "Field4" false (.vInt 0) .nil))

def exCweAfter : Val := .vStruct "ConfigWithEmbeds"
  (.cons "Config" true (.vStruct "Config"
    (.cons "Field1" false (.vStr "over") (.cons "Field2" false (.vInt 7)
      (.cons "Nested" false exNested .nil))))
    (.cons "Field4" false (.vInt 0) .nil))

def exMapRoot : Val :=
  .vStruct "T" (.cons "M" false (.vMap .tInt (.cons "k" (.vInt 0) .nil)) .nil)

def exMapRootAfter : Val :=
  .vStruct "T" (.cons "M" false (.vMap .tInt (.cons "k" (.vInt 5) .nil)) .nil)

def exPtrSliceRoot : Val := .vStruct "T"
  (.cons "P" false (.vSlice (.tPtr .tString) (.cons (.vNil .tString) .nil)) .nil)

def exStrSlice : Vals := .cons (.vStr "zero") (.cons (.vStr "one") .nil)

def exPair : Val :=
  .vStruct "P" (.cons "A" false (.vInt 0) (.cons "B" false (.vInt 10) .nil))

def exPairAfter : Val :=
  .vStruct "P" (.cons "A" false (.vInt 3) (.cons "B" false (.vInt 10) .nil))

def exPairA1 : Val :=
  .vStruct "P" (.cons "A" false (.vInt 1) (.cons "B" false (.vInt 10) .nil))

def exLoader : MockLoader :=
  { mockData := [("A", some (.vInt 1))],
    overrides := [("X", some (.vInt 2)), ("Y", some (.vInt 3))] }

theorem isLeadOf_self_append : ∀ (p r : List LSeg), isLeadOf p (p ++ r) = true
  | [], _ => rfl
  | a :: p, r => by simp [isLeadOf, isLeadOf_self_append p r]

theorem isLeadOf_append_cancel :
    ∀ (p a b : List LSeg), isLeadOf (p ++ a) (p ++ b) = isLeadOf a b
  | [], _, _ => rfl
  | c :: p, a, b => by simp [isLeadOf, isLeadOf_append_cancel p a b]

theorem isLeadOf_trans : ∀ (a b c : List LSeg),
    isLeadOf a b = true → isLeadOf b c = true → isLeadOf a c = true
  | [], _, _, _, _ => rfl
  | x :: a, [], c, h, _ => by simp [isLeadOf] at h
  | x :: a, y :: b, [], _, h => by simp [isLeadOf] at h
  | x :: a, y :: b, z :: c, h1, h2 => by
      simp only [isLeadOf] at h1 h2 ⊢
      rcases Decidable.em (x = y) with he | he
      · subst he
        rcases Decidable.em (x = z) with hz | hz
        · subst hz
          simp only [if_pos rfl] at h1 h2 ⊢
          exact isLeadOf_trans a b c h1 h2
        · rw [if_neg hz] at h2
          exact absurd h2 (by simp)
      · rw [if_neg he] at h1
        exact absurd h1 (by simp)

theorem isLeadOf_decomp : ∀ (p q : List LSeg),
    isLeadOf p q = true → ∃ r, q = p ++ r
  | [], q, _ => ⟨q, rfl⟩
  | a :: p, [], h => by simp [isLeadOf] at h
  | a :: p, b :: q, h => by
      simp only [isLeadOf] at h
      rcases Decidable.em (a = b) with he | he
      · subst he
        simp at h
        obtain ⟨r, hr⟩ := isLeadOf_decomp p q h
        exact ⟨r, by simp [hr]⟩
      · simp [he] at h

theorem getField_setField_self : ∀ (fs : Fields) (n : String) (w old : Val),
    getField fs n = some old → getField (setField fs n w) n = some w
  | .nil, n, w, old, h => by simp [getField] at h
  | .cons nm e v rest, n, w, old, h => by
      rcases Decidable.em (nm = n) with he | he
      · simp [getField, setField, he]
      · simp only [getField, setField, if_neg he] at h ⊢
        exact getField_setField_self rest n w old h

theorem getField_setField_ne : ∀ (fs : Fields) (n m : String) (w : Val),
    m ≠ n → getField (setField fs n w) m = getField fs m
  | .nil, _, _, _, _ => rfl
  | .cons nm e v rest, n, m, w, h => by
      rcases Decidable.em (nm = n) with he | he
      · subst he
        simp only [setField, if_pos rfl, getField]
        rw [if_neg (fun hc : nm = m => h hc.symm), if_neg (fun hc : nm = m => h hc.symm)]
      · simp only [setField, if_neg he, getField]
        rcases Decidable.em (nm = m) with hm | hm
        · simp [hm]
        · simp only [if_neg hm]
          exact getField_setField_ne rest n m w h

theorem valueAtLoc_get : ∀ (fp : List String) (fs : Fields) (sn : String)
    (old : Val) (r : List LSeg), getAtPath fs fp = some old →
    valueAtLoc (.vStruct sn fs) (fp.map .fld ++ r) = valueAtLoc old r
  | [], fs, sn, old, r, h => by simp [getAtPath] at h
  | [n], fs, sn, old, r, h => by
      simp only [getAtPath] at h
      simp [valueAtLoc, h]
  | n :: m :: rest, fs, sn, old, r, h => by
      simp only [getAtPath] at h
      cases hg : getField fs n with
      | none => rw [hg] at h; exact absurd h (by simp)
      | some w =>
        rw [hg] at h
        cases w with
        | vStruct sn' fs' =>
            simp only [List.map, List.cons_append, valueAtLoc, hg]
            exact valueAtLoc_get (m :: rest) fs' sn' old r h
        | vInt k => exact absurd h (by simp)
        | vStr s => exact absurd h (by simp)
        | vBool b => exact absurd h (by simp)
        | vNil t => exact absurd h (by simp)
        | vPtr v => exact absurd h (by simp)
        | vSlice t es => exact absurd h (by simp)
        | vMap t en => exact absurd h (by simp)

theorem valueAtLoc_setAtPath : ∀ (fp : List String) (fs : Fields) (sn : String)
    (old w : Val) (r : List LSeg), getAtPath fs fp = some old →
    valueAtLoc (.vStruct sn (setAtPath fs fp w)) (fp.map .fld ++ r) = valueAtLoc w r
  | [], fs, sn, old, w, r, h => by simp [getAtPath] at h
  | [n], fs, sn, old, w, r, h => by
      simp only [getAtPath] at h
      simp [setAtPath, valueAtLoc, getField_setField_self fs n w old h]
  | n :: m :: rest, fs, sn, old, w, r, h => by
      simp only [getAtPath] at h
      cases hg : getField fs n with
      | none => rw [hg] at h; exact absurd h (by simp)
      | some fv =>
        rw [hg] at h
        cases fv with
        | vStruct sn' fs' =>
            simp only [setAtPath, hg, List.map, List.cons_append, valueAtLoc,
              getField_setField_self fs n _ _ hg]
            exact valueAtLoc_setAtPath (m :: rest) fs' sn' old w r h
        | vInt k => exact absurd h (by simp)
        | vStr s => exact absurd h (by simp)
        | vBool b => exact absurd h (by simp)
        | vNil t => exact absurd h (by simp)
        | vPtr v => exact absurd h (by simp)
        | vSlice t es => exact absurd h (by simp)
        | vMap t en => exact absurd h (by simp)

theorem valueAtLoc_setAtPath_frame : ∀ (fp : List String) (fs : Fields)
    (sn : String) (old w : Val) (q : List LSeg), getAtPath fs fp = some old →
    isLeadOf (fp.map .fld) q = false → isLeadOf q (fp.map .fld) = false →
    valueAtLoc (.vStruct sn (setAtPath fs fp w)) q = valueAtLoc (.vStruct sn fs) q
  | [], fs, sn, old, w, q, h, _, _ => by simp [getAtPath] at h
  | [n], fs, sn, old, w, q, h, hq1, hq2 => by
      simp only [getAtPath] at h
      cases q with
      | nil => simp [isLeadOf] at hq2
      | cons a q' =>
        cases a with
        | fld m =>
            rcases Decidable.em (m = n) with he | he
            · subst he
              simp [isLeadOf] at hq1
            · simp only [setAtPath, valueAtLoc,
                getField_setField_ne fs n m w (fun hc => he hc)]
        | idx i => simp [setAtPath, valueAtLoc]
        | key k => simp [setAtPath, valueAtLoc]
  | n :: m :: rest, fs, sn, old, w, q, h, hq1, hq2 => by
      simp only [getAtPath] at h
      cases hg : getField fs n with
      | none => rw [hg] at h; exact absurd h (by simp)
      | some fv =>
        rw [hg] at h
        cases fv with
        | vStruct sn' fs' =>
          cases q with
          | nil => simp [isLeadOf] at hq2
          | cons a q' =>
            cases a with
            | fld mq =>
                rcases Decidable.em (mq = n) with he | he
                · subst he
                  simp only [List.map, isLeadOf, if_pos rfl] at hq1 hq2
                  simp only [setAtPath, hg, valueAtLoc,
                    getField_setField_self fs mq _ _ hg]
                  exact valueAtLoc_setAtPath_frame (m :: rest) fs' sn' old w q' h hq1 hq2
                · simp only [setAtPath, hg, valueAtLoc,
                    getField_setField_ne fs n mq _ (fun hc => he hc)]
            | idx i => simp [setAtPath, hg, valueAtLoc]
            | key k => simp [setAtPath, hg, valueAtLoc]
        | vInt k => exact absurd h (by simp)
        | vStr s => exact absurd h (by simp)
        | vBool b => exact absurd h (by simp)
        | vNil t => exact absurd h (by simp)
        | vPtr v => exact absurd h (by simp)
        | vSlice t es => exact absurd h (by simp)
        | vMap t en => exact absurd h (by simp)

theorem Vals.get_set_self : ∀ (es : Vals) (i : Nat) (w : Val),
    i < es.length → (es.set i w).get i = some w
  | .nil, i, w, h => by simp [Vals.length] at h
  | .cons v rest, 0, w, _ => rfl
  | .cons v rest, i + 1, w, h => by
      simp only [Vals.length, Nat.add_lt_add_iff_right] at h
      simpa [Vals.set, Vals.get] using Vals.get_set_self rest i w h

theorem Vals.get_set_ne : ∀ (es : Vals) (i j : Nat) (w : Val),
    j ≠ i → (es.set i w).get j = es.get j
  | .nil, _, _, _, _ => rfl
  | .cons v rest, 0, 0, w, h => absurd rfl h
  | .cons v rest, 0, j + 1, w, _ => rfl
  | .cons v rest, i + 1, 0, w, _ => rfl
  | .cons v rest, i + 1, j + 1, w, h => by
      simpa [Vals.set, Vals.get] using
        Vals.get_set_ne rest i j w (fun hc => h (by simp [hc]))

theorem Entries.lookup_set_self : ∀ (en : Entries) (k : String) (w : Val),
    (en.set k w).lookup k = some w
  | .nil, k, w => by simp [Entries.set, Entries.lookup]
  | .cons k' v rest, k, w => by
      rcases Decidable.em (k' = k) with he | he
      · simp [Entries.set, Entries.lookup, he]
      · simp only [Entries.set, if_neg he, Entries.lookup, if_neg he]
        exact Entries.lookup_set_self rest k w

theorem Entries.lookup_set_ne : ∀ (en : Entries) (k k' : String) (w : Val),
    k' ≠ k → (en.set k w).lookup k' = en.lookup k'
  | .nil, k, k', w, h => by
      simp only [Entries.set, Entries.lookup, if_neg (fun hc : k = k' => h hc.symm)]
  | .cons k0 v rest, k, k', w, h => by
      rcases Decidable.em (k0 = k) with he | he
      · subst he
        simp only [Entries.set, if_pos rfl, Entries.lookup,
          if_neg (fun hc : k0 = k' => h hc.symm)]
      · simp only [Entries.set, if_neg he, Entries.lookup]
        rcases Decidable.em (k0 = k') with hk | hk
        · simp [hk]
        · simp only [if_neg hk]
          exact Entries.lookup_set_ne rest k k' w h

theorem valueAtLoc_nil : ∀ (v : Val), valueAtLoc v [] = some v := by
  intro v; cases v <;> rfl

theorem setFieldRecursive_frame : ∀ (segs : List String) (v v' : Val)
    (value : Option Val) (l : List LSeg),
    setFieldRecursive v segs value = .ok v' → resolveLoc v segs = some l →
    (∀ q, isLeadOf l q = false → isLeadOf q l = false →
        valueAtLoc v' q = valueAtLoc v q) ∧
    (∀ nv, value = some nv → valueAtLoc v' l = some nv) ∧
    (value = none → valueAtLoc v' l = (valueAtLoc v l).map zeroLike)
  | [], v, v', value, l, hset, hloc => by simp [resolveLoc] at hloc
  | seg :: rest, v, v', value, l, hset, hloc => by
    cases v with
    | vInt n => simp [setFieldRecursive] at hset
    | vStr s => simp [setFieldRecursive] at hset
    | vBool b => simp [setFieldRecursive] at hset
    | vNil t => simp [setFieldRecursive] at hset
    | vPtr w => simp [setFieldRecursive] at hset
    | vStruct sn fs =>
      simp only [setFieldRecursive] at hset
      simp only [resolveLoc] at hloc
      cases hfb : fieldByName (.tStruct sn (tyFields fs)) seg with
      | none => rw [hfb] at hset; simp only [] at hset; exact absurd hset (by simp)
      | some fp =>
        rw [hfb] at hset hloc
        simp only [] at hset hloc
        cases hga : getAtPath fs fp with
        | none => rw [hga] at hset; simp only [] at hset; exact absurd hset (by simp)
        | some fieldVal =>
          rw [hga] at hset hloc
          simp only [] at hset hloc
          cases hex : allExported fp with
          | false =>
            rw [if_neg (by simp [hex])] at hset
            exact absurd hset (by simp)
          | true =>
            rw [if_pos hex] at hset hloc
            cases rest with
            | nil =>
              simp only [] at hset hloc
              simp only [Option.some.injEq] at hloc
              subst hloc
              cases value with
              | none =>
                simp only [] at hset
                have hv' : v' = .vStruct sn (setAtPath fs fp (zeroLike fieldVal)) := by
                  cases hset; rfl
                subst hv'
                refine ⟨?_, ?_, ?_⟩
                · intro q hq1 hq2
                  exact valueAtLoc_setAtPath_frame fp fs sn fieldVal _ q hga hq1 hq2
                · intro nv hnv; cases hnv
                · intro _
                  have h1 := valueAtLoc_setAtPath fp fs sn fieldVal (zeroLike fieldVal) [] hga
                  have h2 := valueAtLoc_get fp fs sn fieldVal [] hga
                  rw [List.append_nil] at h1 h2
                  rw [h1, h2, valueAtLoc_nil, valueAtLoc_nil]
                  rfl
              | some nv =>
                simp only [] at hset
                cases htb : tyBeq (tyOf nv) (tyOf fieldVal) with
                | false => rw [htb] at hset; exact absurd hset (by simp)
                | true =>
                  rw [htb] at hset
                  rw [if_pos rfl] at hset
                  have hv' : v' = .vStruct sn (setAtPath fs fp nv) := by
                    cases hset; rfl
                  subst hv'
                  refine ⟨?_, ?_, ?_⟩
                  · intro q hq1 hq2
                    exact valueAtLoc_setAtPath_frame fp fs sn fieldVal nv q hga hq1 hq2
                  · intro nv' hnv'
                    cases hnv'
                    have h1 := valueAtLoc_setAtPath fp fs sn fieldVal nv [] hga
                    rw [List.append_nil] at h1
                    rw [h1, valueAtLoc_nil]
                  · intro hc; cases hc
            | cons r2 rs =>
              simp only [] at hset hloc
              cases hrec : setFieldRecursive fieldVal (r2 :: rs) value with
              | err e => rw [hrec] at hset; simp only [] at hset; exact absurd hset (by simp)
              | goPanic m => rw [hrec] at hset; simp only [] at hset; exact absurd hset (by simp)
              | ok fv' =>
                rw [hrec] at hset
                simp only [] at hset
                cases hrl : resolveLoc fieldVal (r2 :: rs) with
                | none => rw [hrl] at hloc; simp only [] at hloc; exact absurd hloc (by simp)
                | some lr =>
                  rw [hrl] at hloc
                  simp only [] at hloc
                  simp only [Option.some.injEq] at hloc
                  subst hloc
                  have hv' : v' = .vStruct sn (setAtPath fs fp fv') := by
                    cases hset; rfl
                  subst hv'
                  obtain ⟨iha, ihb, ihc⟩ :=
                    setFieldRecursive_frame (r2 :: rs) fieldVal fv' value lr hrec hrl
                  refine ⟨?_, ?_, ?_⟩
                  · intro q hq1 hq2
                    cases hql : isLeadOf (fp.map .fld) q with
                    | true =>
                      obtain ⟨q', hq'⟩ := isLeadOf_decomp _ q hql
                      subst hq'
                      rw [isLeadOf_append_cancel] at hq1 hq2
                      rw [valueAtLoc_setAtPath fp fs sn fieldVal fv' q' hga,
                        valueAtLoc_get fp fs sn fieldVal q' hga]
                      exact iha q' hq1 hq2
                    | false =>
                      cases hql2 : isLeadOf q (fp.map .fld) with
                      | true =>
                        have : isLeadOf q (fp.map .fld ++ lr) = true :=
                          isLeadOf_trans q (fp.map .fld) _ hql2
                            (isLeadOf_self_append _ lr)
                        rw [this] at hq2; cases hq2
                      | false =>
                        exact valueAtLoc_setAtPath_frame fp fs sn fieldVal fv' q hga hql hql2
                  · intro nv hnv
                    rw [valueAtLoc_setAtPath fp fs sn fieldVal fv' lr hga]
                    exact ihb nv hnv
                  · intro hnone
                    rw [valueAtLoc_setAtPath fp fs sn fieldVal fv' lr hga,
                      valueAtLoc_get fp fs sn fieldVal lr hga]
                    exact ihc hnone
    | vSlice t es =>
      simp only [setFieldRecursive] at hset
      simp only [resolveLoc] at hloc
      cases hai : atoi seg with
      | none => rw [hai] at hset; simp only [] at hset; exact absurd hset (by simp)
      | some i =>
        rw [hai] at hset hloc
        simp only [] at hset hloc
        by_cases hb : i < 0 ∨ ((es.length : Int) ≤ i)
        · rw [if_pos hb] at hset; exact absurd hset (by simp)
        · rw [if_neg hb] at hset hloc
          push_neg at hb
          obtain ⟨hb0, hbl⟩ := hb
          have hlen : i.toNat < es.length := by omega
          cases rest with
          | nil =>
            simp only [] at hset hloc
            simp only [Option.some.injEq] at hloc
            subst hloc
            cases value with
            | none => simp only [] at hset; exact absurd hset (by simp)
            | some nv =>
              simp only [] at hset
              cases htb : tyBeq (tyOf nv) t with
              | false => rw [htb] at hset; exact absurd hset (by simp)
              | true =>
                rw [htb] at hset
                rw [if_pos rfl] at hset
                have hv' : v' = .vSlice t (es.set i.toNat nv) := by cases hset; rfl
                subst hv'
                refine ⟨?_, ?_, ?_⟩
                · intro q hq1 hq2
                  cases q with
                  | nil => simp [isLeadOf] at hq2
                  | cons a q' =>
                    cases a with
                    | fld m => simp [valueAtLoc]
                    | key k => simp [valueAtLoc]
                    | idx j =>
                      rcases Decidable.em (j = i.toNat) with he | he
                      · subst he
                        simp [isLeadOf] at hq1
                      · simp only [valueAtLoc, Vals.get_set_ne es i.toNat j nv he]
                · intro nv' hnv'
                  cases hnv'
                  simp only [valueAtLoc, Vals.get_set_self es i.toNat nv hlen, valueAtLoc_nil]
                · intro hc; cases hc
          | cons r2 rs =>
            simp only [] at hset hloc
            cases hge : es.get i.toNat with
            | none => rw [hge] at hset; simp only [] at hset; exact absurd hset (by simp)
            | some ev =>
              rw [hge] at hset hloc
              simp only [] at hset hloc
              cases hrec : setFieldRecursive ev (r2 :: rs) value with
              | err e => rw [hrec] at hset; simp only [] at hset; exact absurd hset (by simp)
              | goPanic m => rw [hrec] at hset; simp only [] at hset; exact absurd hset (by simp)
              | ok ev' =>
                rw [hrec] at hset
                simp only [] at hset
                cases hrl : resolveLoc ev (r2 :: rs) with
                | none => rw [hrl] at hloc; simp only [] at hloc; exact absurd hloc (by simp)
                | some lr =>
                  rw [hrl] at hloc
                  simp only [] at hloc
                  simp only [Option.some.injEq] at hloc
                  subst hloc
                  have hv' : v' = .vSlice t (es.set i.toNat ev') := by cases hset; rfl
                  subst hv'
                  obtain ⟨iha, ihb, ihc⟩ :=
                    setFieldRecursive_frame (r2 :: rs) ev ev' value lr hrec hrl
                  refine ⟨?_, ?_, ?_⟩
                  · intro q hq1 hq2
                    cases q with
                    | nil => simp [isLeadOf] at hq2
                    | cons a q' =>
                      cases a with
                      | fld m => simp [valueAtLoc]
                      | key k => simp [valueAtLoc]
                      | idx j =>
                        rcases Decidable.em (j = i.toNat) with he | he
                        · subst he
                          simp only [isLeadOf, if_pos rfl] at hq1 hq2
                          simp only [valueAtLoc, Vals.get_set_self es i.toNat ev' hlen, hge]
                          exact iha q' hq1 hq2
                        · simp only [valueAtLoc, Vals.get_set_ne es i.toNat j ev' he]
                  · intro nv hnv
                    simp only [valueAtLoc, Vals.get_set_self es i.toNat ev' hlen, hge]
                    exact ihb nv hnv
                  · intro hnone
                    simp only [valueAtLoc, Vals.get_set_self es i.toNat ev' hlen, hge]
                    exact ihc hnone
    | vMap t en =>
      simp only [setFieldRecursive] at hset
      simp only [resolveLoc] at hloc
      cases value with
      | none => simp only [] at hset; exact absurd hset (by simp)
      | some nv =>
        simp only [] at hset
        cases rest with
        | cons r2 rs => simp only [] at hloc; exact absurd hloc (by simp)
        | nil =>
          simp only [] at hloc
          simp only [Option.some.injEq] at hloc
          subst hloc
          cases htb : tyBeq (tyOf nv) t with
          | false => rw [htb] at hset; exact absurd hset (by simp)
          | true =>
            rw [htb] at hset
            rw [if_pos rfl] at hset
            have hv' : v' = .vMap t (en.set seg nv) := by cases hset; rfl
            subst hv'
            refine ⟨?_, ?_, ?_⟩
            · intro q hq1 hq2
              cases q with
              | nil => simp [isLeadOf] at hq2
              | cons a q' =>
                cases a with
                | fld m => simp [valueAtLoc]
                | idx j => simp [valueAtLoc]
                | key k =>
                  rcases Decidable.em (k = seg) with he | he
                  · subst he
                    simp [isLeadOf] at hq1
                  · simp only [valueAtLoc, Entries.lookup_set_ne en seg k nv he]
            · intro nv' hnv'
              cases hnv'
              simp only [valueAtLoc, Entries.lookup_set_self en seg nv, valueAtLoc_nil]
            · intro hc; cases hc

theorem setFields_hard_eq : ∀ (obj : Val) (fields : List (String × Option Val)),
    SetFields obj fields false = strictSpec obj fields
  | _, [] => rfl
  | obj, (p, val) :: rest => by
      simp only [SetFields, strictSpec]
      cases SetValue obj p val with
      | ok obj' => exact setFields_hard_eq obj' rest
      | err e => rfl
      | goPanic m => rfl

theorem setFields_soft_eq : ∀ (obj : Val) (fields : List (String × Option Val)),
    SetFields obj fields true = softSpec obj fields
  | _, [] => rfl
  | obj, (p, val) :: rest => by
      simp only [SetFields, softSpec]
      cases SetValue obj p val with
      | ok obj' => exact setFields_soft_eq obj' rest
      | err e =>
          simp only []
          rw [setFields_soft_eq obj rest, if_pos trivial]
      | goPanic m => rfl

theorem setFields_hard_stop : ∀ (pre : List (String × Option Val)) (obj obj' : Val)
    (p : String) (v : Option Val) (e : GoError) (post : List (String × Option Val)),
    SetFields obj pre false = .done obj' [] → SetValue obj' p v = .err e →
    SetFields obj (pre ++ (p, v) :: post) false = .done obj' [e]
  | [], obj, obj', p, v, e, post, hpre, hv => by
      simp only [SetFields] at hpre
      have hobj : obj = obj' := by cases hpre; rfl
      subst hobj
      simp only [List.nil_append, SetFields, hv]
      rw [if_neg Bool.false_ne_true]
  | (p0, v0) :: pre', obj, obj', p, v, e, post, hpre, hv => by
      simp only [SetFields] at hpre
      cases h0 : SetValue obj p0 v0 with
      | ok o1 =>
          rw [h0] at hpre
          simp only [] at hpre
          simp only [List.cons_append, SetFields, h0]
          exact setFields_hard_stop pre' o1 obj' p v e post hpre hv
      | err e0 =>
          rw [h0] at hpre
          simp only [] at hpre
          exact absurd hpre (by simp)
      | goPanic m =>
          rw [h0] at hpre
          simp only [] at hpre
          exact absurd hpre (by simp)

theorem fieldByName_single (t : Ty) (name : String) (d : Nat) (fp : List String)
    (h : tyMatches t name = [(d, fp)]) : fieldByName t name = some fp := by
  simp [fieldByName, h, minDepth, List.filter]

/-- C1 (amended): recursing past a mapping does not fail — the code has no
UnsupportedTraversalError branch.  A mapping node consumes the next segment
verbatim as the key and ignores every remaining segment: with a non-empty
remainder the call behaves exactly as if the path ended at that key,
upserting the entry when the value's runtime type matches the map's value
type and reporting a type mismatch otherwise. -/
theorem claim_C1 : ∀ (t : Ty) (en : Entries) (seg : String)
    (rest : List String) (nv : Val),
    setFieldRecursive (.vMap t en) (seg :: rest) (some nv) =
      (if tyBeq (tyOf nv) t then .ok (.vMap t (en.set seg nv))
       else .err (.mapValueTypeMismatch (tyOf nv) t)) ∧
    setFieldRecursive (.vMap t en) (seg :: rest) (some nv) =
      setFieldRecursive (.vMap t en) [seg] (some nv) :=
  fun _ _ _ _ _ => ⟨rfl, rfl⟩

/-- C1 counterexample: on the record `{M: map[string]int{"k": 0}}` the call
`SetValue(&obj, "M.k.extra", 5)` does not fail with any error, contrary to
the claim: it succeeds, assigns 5 to the entry "k" of the mapping (so the
mapping does change) and silently drops the segment "extra". -/
theorem claim_C1_counterexample :
    SetValue exMapRoot "M.k.extra" (some (.vInt 5)) = .ok exMapRootAfter ∧
    valueAtLoc exMapRoot [.fld "M", .key "k"] = some (.vInt 0) ∧
    valueAtLoc exMapRootAfter [.fld "M", .key "k"] = some (.vInt 5) :=
  ⟨rfl, rfl, rfl⟩

/-- C2: at the failing input — a sequence of nilable `*string` elements,
path "P.0", nil value — the code reaches `reflect.ValueOf(nil).Type()` and
panics instead of zeroing the element and returning success; a map entry
behaves the same.  This contradicts the claim's uniform nil-reset rule and
the errors-as-values propagation policy (only the struct-field leaf
implements the nil branch, see the C9 theorem). -/
theorem claim_C2 :
    SetValue exPtrSliceRoot "P.0" none =
      .goPanic "reflect: call of reflect.Value.Type on zero Value" ∧
    SetValue (.vStruct "T" (.cons "M" false (.vMap (.tPtr .tString) .nil) .nil))
        "M.k" none =
      .goPanic "reflect: call of reflect.Value.Type on zero Value" :=
  ⟨rfl, rfl⟩

/-- C3 (amended): embedded fields ARE auto-flattened into the path
namespace.  `FieldByName` promotes fields of embedded structs, so when the
segment names no direct field and exactly one field of depth-1 embedded
structs (here reached through the embedded field `e`), the lookup succeeds
and the promoted field is assigned — no FieldNotFoundError.  (The explicit
form with the embedded type's name as a segment also works, as ordinary
direct-field traversal.) -/
theorem claim_C3 : ∀ (sn : String) (fs : Fields) (e seg : String)
    (fieldVal nv : Val),
    ftyMatches (tyFields fs) seg = [(1, [e, seg])] →
    getAtPath fs [e, seg] = some fieldVal →
    allExported [e, seg] = true →
    tyBeq (tyOf nv) (tyOf fieldVal) = true →
    setFieldRecursive (.vStruct sn fs) [seg] (some nv) =
      .ok (.vStruct sn (setAtPath fs [e, seg] nv)) := by
  intro sn fs e seg fieldVal nv hm hga hex htb
  have hfb : fieldByName (.tStruct sn (tyFields fs)) seg = some [e, seg] :=
    fieldByName_single _ _ 1 _ (by simpa [tyMatches] using hm)
  simp only [setFieldRecursive]
  rw [hfb]
  simp only []
  rw [hga]
  simp only []
  rw [if_pos hex]
  rw [htb, if_pos rfl]

/-- C3 counterexample: `ConfigWithEmbeds` embeds `Config`; the path
"Field1" (no explicit "Config" segment) does not fail with a
FieldNotFoundError as the claim states — it resolves through promotion to
the embedded field and the assignment succeeds, exactly as the repository's
own `TestOverrideWithEmbeddedStruct` expects. -/
theorem claim_C3_counterexample :
    SetValue exCwe "Field1" (some (.vStr "over")) = .ok exCweAfter ∧
    valueAtLoc exCweAfter [.fld "Config", .fld "Field1"] = some (.vStr "over") ∧
    fieldByName (tyOf exCwe) "Field1" = some ["Config", "Field1"] :=
  ⟨rfl, rfl, rfl⟩

/-- Witness for the amended C3 at the `ConfigWithEmbeds` instance. -/
theorem claim_C3_witness :
    setFieldRecursive exCwe ["Field1"] (some (.vStr "over")) = .ok exCweAfter :=
  claim_C3 "ConfigWithEmbeds"
    (.cons "Config" true exConfig (.cons "Field4" false (.vInt 0) .nil))
    "Config" "Field1" (.vStr "") (.vStr "over") rfl rfl rfl rfl

/-- C5 (amended): for a path that addresses a leaf — `resolveLoc` succeeds,
which excludes exactly the paths that carry extra segments past a mapping —
a successful `SetValue` puts the new value at the addressed location (or
the zero value of its type, when the value is nil), and every location
neither above nor below the addressed leaf is unchanged. -/
theorem claim_C5 : ∀ (root : Val) (path : String) (value : Option Val)
    (root' : Val) (l : List LSeg),
    SetValue root path value = .ok root' →
    resolveLoc root (splitPath path) = some l →
    (∀ q, isLeadOf l q = false → isLeadOf q l = false →
        valueAtLoc root' q = valueAtLoc root q) ∧
    (∀ nv, value = some nv → valueAtLoc root' l = some nv) ∧
    (value = none → valueAtLoc root' l = (valueAtLoc root l).map zeroLike) :=
  fun _ path value root' l hset hloc =>
    setFieldRecursive_frame (splitPath path) _ root' value l hset hloc

/-- C5 counterexample: `SetValue(&obj, "M.k.j", 5)` succeeds on
`{M: map[string]int{"k": 0}}`, yet the path addresses no leaf (the mapping
consumed "k" and dropped "j", so `resolveLoc` fails) while the entry at the
different location `M.k` did change — so it is not the case that exactly
the addressed leaf differs. -/
theorem claim_C5_counterexample :
    SetValue exMapRoot "M.k.j" (some (.vInt 5)) = .ok exMapRootAfter ∧
    resolveLoc exMapRoot (splitPath "M.k.j") = none ∧
    valueAtLoc exMapRoot [.fld "M", .key "k"] = some (.vInt 0) ∧
    valueAtLoc exMapRootAfter [.fld "M", .key "k"] = some (.vInt 5) :=
  ⟨rfl, rfl, rfl, rfl⟩

/-- Witness for the amended C5: setting field "A" of `{A: 0, B: 10}` to 3
leaves the sibling "B" unchanged and stores 3 at "A". -/
theorem claim_C5_witness :
    valueAtLoc exPairAfter [.fld "B"] = valueAtLoc exPair [.fld "B"] ∧
    valueAtLoc exPairAfter [.fld "A"] = some (.vInt 3) := by
  have h := claim_C5 exPair "A" (some (.vInt 3)) exPairAfter [.fld "A"] rfl rfl
  exact ⟨h.1 [.fld "B"] rfl rfl, h.2.1 (.vInt 3) rfl⟩

/-- C4: batch semantics of `SetFields`.  Hard mode equals the spec-side
`strictSpec` (stop at the first failure with that single error, keep what
was already applied, leave the rest untouched, no rollback); soft mode
equals `softSpec` (attempt every pair regardless of earlier failures and
return the complete error list, empty when all succeed).  The third part
spells out the hard-mode anatomy: after a cleanly applied prefix, a
failing entry stops the batch with exactly that one error and the state
the prefix reached — the suffix is never processed. -/
theorem claim_C4 :
    (∀ (obj : Val) (fields : List (String × Option Val)),
      SetFields obj fields false = strictSpec obj fields) ∧
    (∀ (obj : Val) (fields : List (String × Option Val)),
      SetFields obj fields true = softSpec obj fields) ∧
    (∀ (pre : List (String × Option Val)) (obj obj' : Val) (p : String)
        (v : Option Val) (e : GoError) (post : List (String × Option Val)),
      SetFields obj pre false = .done obj' [] → SetValue obj' p v = .err e →
      SetFields obj (pre ++ (p, v) :: post) false = .done obj' [e]) :=
  ⟨setFields_hard_eq, setFields_soft_eq, setFields_hard_stop⟩

/-- Witness for C4: on `{A: 0, B: 10}` the hard batch stops at the unknown
field "X" with exactly that error, "A" stays applied and the pending "B"
entry is untouched; the soft batch attempts every entry. -/
theorem claim_C4_witness :
    SetFields exPair
      [("A", some (.vInt 3)), ("X", some (.vInt 9)), ("B", some (.vInt 11))]
      false = .done exPairAfter [.fieldNotFound "X"] ∧
    SetFields exPair [("X", some (.vInt 9)), ("A", some (.vInt 3))] true =
      softSpec exPair [("X", some (.vInt 9)), ("A", some (.vInt 3))] := by
  constructor
  · exact claim_C4.2.2 [("A", some (.vInt 3))] exPair exPairAfter "X"
      (some (.vInt 9)) (.fieldNotFound "X") [("B", some (.vInt 11))] rfl rfl
  · exact claim_C4.2.1 exPair _

/-- C6: a non-nil leaf value whose runtime type is not assignable to the
destination's static type fails with the corresponding type-mismatch error
for each leaf kind — struct field, sequence element, map entry — and each
error's message names both the provided and the expected type.  An
`Outcome.err` carries no mutated graph: the source returns before any
assignment, so the destination is unchanged. -/
theorem claim_C6 :
    (∀ (sn : String) (fs : Fields) (seg : String) (fp : List String)
        (fieldVal nv : Val),
      fieldByName (.tStruct sn (tyFields fs)) seg = some fp →
      getAtPath fs fp = some fieldVal →
      allExported fp = true →
      tyBeq (tyOf nv) (tyOf fieldVal) = false →
      setFieldRecursive (.vStruct sn fs) [seg] (some nv) =
        .err (.fieldTypeMismatch (tyOf nv) (tyOf fieldVal)) ∧
      (GoError.fieldTypeMismatch (tyOf nv) (tyOf fieldVal)).message =
        "value type " ++ tyStr (tyOf nv) ++ " is not assignable to field type "
          ++ tyStr (tyOf fieldVal)) ∧
    (∀ (t : Ty) (es : Vals) (seg : String) (i : Int) (nv : Val),
      atoi seg = some i → ¬(i < 0 ∨ (es.length : Int) ≤ i) →
      tyBeq (tyOf nv) t = false →
      setFieldRecursive (.vSlice t es) [seg] (some nv) =
        .err (.elemTypeMismatch (tyOf nv) t) ∧
      (GoError.elemTypeMismatch (tyOf nv) t).message =
        "value type " ++ tyStr (tyOf nv) ++ " is not assignable to element type "
          ++ tyStr t) ∧
    (∀ (t : Ty) (en : Entries) (seg : String) (rest : List String) (nv : Val),
      tyBeq (tyOf nv) t = false →
      setFieldRecursive (.vMap t en) (seg :: rest) (some nv) =
        .err (.mapValueTypeMismatch (tyOf nv) t) ∧
      (GoError.mapValueTypeMismatch (tyOf nv) t).message =
        "value type " ++ tyStr (tyOf nv) ++ " is not assignable to map value type "
          ++ tyStr t) := by
  refine ⟨?_, ?_, ?_⟩
  · intro sn fs seg fp fieldVal nv hfb hga hex htb
    refine ⟨?_, rfl⟩
    simp only [setFieldRecursive]
    rw [hfb]
    simp only []
    rw [hga]
    simp only []
    rw [if_pos hex]
    rw [htb, if_neg Bool.false_ne_true]
  · intro t es seg i nv hai hb htb
    refine ⟨?_, rfl⟩
    simp only [setFieldRecursive]
    rw [hai]
    simp only []
    rw [if_neg hb]
    rw [htb, if_neg Bool.false_ne_true]
  · intro t en seg rest nv htb
    refine ⟨?_, rfl⟩
    simp only [setFieldRecursive]
    rw [htb, if_neg Bool.false_ne_true]

/-- Witness for C6, one instance per leaf kind: string into an int field,
int into a string sequence element, string into an int map entry. -/
theorem claim_C6_witness :
    setFieldRecursive exPair ["A"] (some (.vStr "x")) =
      .err (.fieldTypeMismatch .tString .tInt) ∧
    setFieldRecursive (.vSlice .tString exStrSlice) ["1"] (some (.vInt 9)) =
      .err (.elemTypeMismatch .tInt .tString) ∧
    setFieldRecursive (.vMap .tInt (.cons "k" (.vInt 0) .nil)) ["k"]
        (some (.vStr "s")) =
      .err (.mapValueTypeMismatch .tString .tInt) := by
  refine ⟨?_, ?_, ?_⟩
  · exact (claim_C6.1 "P"
      (.cons "A" false (.vInt 0) (.cons "B" false (.vInt 10) .nil))
      "A" ["A"] (.vInt 0) (.vStr "x") rfl rfl rfl rfl).1
  · exact (claim_C6.2.1 .tString exStrSlice "1" 1 (.vInt 9) rfl
      (by decide) rfl).1
  · exact (claim_C6.2.2 .tInt (.cons "k" (.vInt 0) .nil) "k" [] (.vStr "s")
      rfl).1

/-- C7: sequence-index semantics at the final segment.  A parsable index i
with 0 ≤ i < len and a matching element type succeeds, writing the
element; i < 0 or i ≥ len fails with the out-of-range error (no
auto-growth); a segment that does not parse as an integer fails with the
invalid-index error. -/
theorem claim_C7 : ∀ (t : Ty) (es : Vals) (seg : String) (nv : Val),
    (∀ i : Int, atoi seg = some i → 0 ≤ i → i < (es.length : Int) →
      tyBeq (tyOf nv) t = true →
      setFieldRecursive (.vSlice t es) [seg] (some nv) =
        .ok (.vSlice t (es.set i.toNat nv))) ∧
    (∀ i : Int, atoi seg = some i → (i < 0 ∨ (es.length : Int) ≤ i) →
      setFieldRecursive (.vSlice t es) [seg] (some nv) =
        .err (.indexOutOfRange i)) ∧
    (atoi seg = none →
      setFieldRecursive (.vSlice t es) [seg] (some nv) =
        .err (.invalidIndex seg)) := by
  intro t es seg nv
  refine ⟨?_, ?_, ?_⟩
  · intro i hai h0 hlen htb
    simp only [setFieldRecursive]
    rw [hai]
    simp only []
    rw [if_neg (by omega)]
    rw [htb, if_pos rfl]
  · intro i hai hb
    simp only [setFieldRecursive]
    rw [hai]
    simp only []
    rw [if_pos hb]
  · intro hai
    simp only [setFieldRecursive]
    rw [hai]

/-- Witness for C7 on a two-element string sequence: in-bounds write,
out-of-range above, negative index, non-numeric segment. -/
theorem claim_C7_witness :
    setFieldRecursive (.vSlice .tString exStrSlice) ["1"] (some (.vStr "x")) =
      .ok (.vSlice .tString (exStrSlice.set 1 (.vStr "x"))) ∧
    setFieldRecursive (.vSlice .tString exStrSlice) ["2"] (some (.vStr "x")) =
      .err (.indexOutOfRange 2) ∧
    setFieldRecursive (.vSlice .tString exStrSlice) ["-1"] (some (.vStr "x")) =
      .err (.indexOutOfRange (-1)) ∧
    setFieldRecursive (.vSlice .tString exStrSlice) ["nope"] (some (.vStr "x")) =
      .err (.invalidIndex "nope") := by
  refine ⟨?_, ?_, ?_, ?_⟩
  · exact (claim_C7 .tString exStrSlice "1" (.vStr "x")).1 1 rfl
      (by decide) (by decide) rfl
  · exact (claim_C7 .tString exStrSlice "2" (.vStr "x")).2.1 2 rfl (by decide)
  · exact (claim_C7 .tString exStrSlice "-1" (.vStr "x")).2.1 (-1) rfl
      (by decide)
  · exact (claim_C7 .tString exStrSlice "nope" (.vStr "x")).2.2 rfl

/-- C8 (amended): for the empty path, `strings.Split` yields one empty
segment, so the no-path-segments guard (the code's only InvalidPathError)
is not reached: a struct root (which, as any Go struct, has no field named
"") fails with a FieldNotFoundError for the empty field name, and the
record is unchanged.  Moreover no `SetValue` call on any root can return
the no-path-segments error. -/
theorem claim_C8 :
    splitPath "" = [""] ∧
    (∀ (sn : String) (fs : Fields) (value : Option Val),
      fieldByName (.tStruct sn (tyFields fs)) "" = none →
      SetValue (.vStruct sn fs) "" value = .err (.fieldNotFound "")) ∧
    (∀ (v : Val) (value : Option Val),
      SetValue v "" value ≠ .err .noPathSegments) := by
  refine ⟨rfl, ?_, ?_⟩
  · intro sn fs value hfb
    show setFieldRecursive (.vStruct sn fs) [""] value = _
    simp only [setFieldRecursive]
    rw [hfb]
  · intro v value
    show setFieldRecursive v [""] value ≠ _
    cases v with
    | vStruct sn fs =>
      simp only [setFieldRecursive]
      cases hfb : fieldByName (.tStruct sn (tyFields fs)) "" with
      | none => simp
      | some fp =>
        simp only []
        cases hga : getAtPath fs fp with
        | none => simp
        | some fv =>
          simp only []
          cases hex : allExported fp with
          | false => simp [hex]
          | true =>
            rw [if_pos rfl]
            cases value with
            | none => simp
            | some nv =>
              simp only []
              cases htb : tyBeq (tyOf nv) (tyOf fv) with
              | false => simp [htb]
              | true => simp [htb]
    | vSlice t es =>
      have hai : atoi "" = none := rfl
      simp [setFieldRecursive, hai]
    | vMap t en =>
      cases value with
      | none => simp [setFieldRecursive]
      | some nv =>
        cases htb : tyBeq (tyOf nv) t with
        | false => simp [setFieldRecursive, htb]
        | true => simp [setFieldRecursive, htb]
    | vInt n => simp [setFieldRecursive]
    | vStr s => simp [setFieldRecursive]
    | vBool b => simp [setFieldRecursive]
    | vNil t => simp [setFieldRecursive]
    | vPtr w => simp [setFieldRecursive]

/-- C8 counterexample: on the `Config` record the empty path produces the
field-not-found error for the empty name ("field  does not exist"), not
the code's empty-path error "no path segments provided" — so `SetValue`
with the empty path does not fail with an InvalidPathError. -/
theorem claim_C8_counterexample :
    SetValue exConfig "" (some (.vStr "x")) = .err (.fieldNotFound "") ∧
    GoError.fieldNotFound "" ≠ GoError.noPathSegments ∧
    (GoError.fieldNotFound "").message = "field  does not exist" := by
  refine ⟨rfl, ?_, rfl⟩
  intro h
  exact GoError.noConfusion h

/-- Witness for the amended C8 at the `Config` record. -/
theorem claim_C8_witness :
    SetValue exConfig "" (some (.vInt 1)) = .err (.fieldNotFound "") :=
  claim_C8.2.1 "Config"
    (.cons "Field1" false (.vStr "") (.cons "Field2" false (.vInt 7)
      (.cons "Nested" false exNested .nil))) (some (.vInt 1)) rfl

/-- C9: the nil value on a final struct-field segment resets the field to
the zero value of its type and succeeds for every field type whatsoever
(`fieldVal` is unconstrained) — the nil branch precedes the assignability
check, so a nil struct-field assignment can never produce a
TypeMismatchError, nilable destination or not. -/
theorem claim_C9 : ∀ (sn : String) (fs : Fields) (seg : String)
    (fp : List String) (fieldVal : Val),
    fieldByName (.tStruct sn (tyFields fs)) seg = some fp →
    getAtPath fs fp = some fieldVal →
    allExported fp = true →
    setFieldRecursive (.vStruct sn fs) [seg] none =
      .ok (.vStruct sn (setAtPath fs fp (zeroLike fieldVal))) := by
  intro sn fs seg fp fieldVal hfb hga hex
  simp only [setFieldRecursive]
  rw [hfb]
  simp only []
  rw [hga]
  simp only []
  rw [if_pos hex]

/-- Witness for C9 on non-nilable field types: an int field and a bool
field are both reset to zero by the nil value, with success. -/
theorem claim_C9_witness :
    setFieldRecursive exPair ["B"] none =
      .ok (.vStruct "P" (.cons "A" false (.vInt 0)
        (.cons "B" false (.vInt 0) .nil))) ∧
    setFieldRecursive exNested ["Field3"] none =
      .ok (.vStruct "" (.cons "Field3" false (.vBool false) .nil)) := by
  constructor
  · exact claim_C9 "P"
      (.cons "A" false (.vInt 0) (.cons "B" false (.vInt 10) .nil))
      "B" ["B"] (.vInt 10) rfl rfl rfl
  · exact claim_C9 ""
      (.cons "Field3" false (.vBool false) .nil)
      "Field3" ["Field3"] (.vBool false) rfl rfl rfl

/-- C10: `MockLoader.Load` applies the base mock data in hard mode; when
that fails it returns the first collected error (hard mode collects exactly
one).  Otherwise it applies the accumulated overrides in soft mode —
attempting every override, per `softSpec` — and again returns only the
first error of the collected list, discarding the rest, or nil when the
list is empty. -/
theorem claim_C10 : ∀ (m : MockLoader) (config c1 : Val),
    (∀ (e : GoError) (es : List GoError),
      SetFields config m.mockData false = .done c1 (e :: es) →
      m.Load config = .done c1 (some e)) ∧
    (SetFields config m.mockData false = .done c1 [] →
      (∀ (c2 : Val) (e : GoError) (es : List GoError),
        SetFields c1 m.overrides true = .done c2 (e :: es) →
        m.Load config = .done c2 (some e)) ∧
      (∀ c2 : Val, SetFields c1 m.overrides true = .done c2 [] →
        m.Load config = .done c2 none)) ∧
    SetFields c1 m.overrides true = softSpec c1 m.overrides := by
  intro m config c1
  refine ⟨?_, ?_, setFields_soft_eq c1 m.overrides⟩
  · intro e es h
    simp only [MockLoader.Load, h]
  · intro h1
    constructor
    · intro c2 e es h2
      simp only [MockLoader.Load, h1, h2]
    · intro c2 h2
      simp only [MockLoader.Load, h1, h2]

/-- Witness for C10: base datum "A" applies; both overrides "X" and "Y"
fail in soft mode, and `Load` reports only the first of the two collected
errors. -/
theorem claim_C10_witness :
    exLoader.Load exPair = .done exPairA1 (some (.fieldNotFound "X")) :=
  ((claim_C10 exLoader exPair exPairA1).2.1 rfl).1 exPairA1
    (.fieldNotFound "X") [.fieldNotFound "Y"] rfl
